import Mathlib

/-!
Verification of the intent interpretation and dispatch pipeline of the
YoCHAN.Ai voice assistant (src/ai_core.py, src/state.py, src/apps.py).

Text is modelled as `List Char`.  Python string operations used by the
source (`str.lower`, `str.strip`, `re.sub` over a punctuation class,
`str.replace`, `" ".join(text.split())`, substring tests with `in`,
`re.search` for the two time patterns) are given executable models below.
`str.lower` is modelled on the ASCII range, which covers every string
constant appearing in the source.
-/

namespace YoChan

/-- Coerce a string literal to the `List Char` representation used throughout. -/
def strL (s : String) : List Char := s.toList

/-- The apostrophe character (used by the lexicon key for whatsapp). -/
def apos : Char := Char.ofNat 39

/-- Python whitespace characters, as recognised by `str.split`, `str.strip`
and the regex class `\s` (ASCII range). -/
def isPySpace (c : Char) : Bool :=
  c = ' ' || c = '\t' || c = '\n' || c = '\r' || c = '\x0b' || c = '\x0c'

/-- The ASCII uppercase/lowercase table backing the model of `str.lower`. -/
def upperLowerTable : List (Char × Char) :=
  [('A', 'a'), ('B', 'b'), ('C', 'c'), ('D', 'd'), ('E', 'e'), ('F', 'f'),
   ('G', 'g'), ('H', 'h'), ('I', 'i'), ('J', 'j'), ('K', 'k'), ('L', 'l'),
   ('M', 'm'), ('N', 'n'), ('O', 'o'), ('P', 'p'), ('Q', 'q'), ('R', 'r'),
   ('S', 's'), ('T', 't'), ('U', 'u'), ('V', 'v'), ('W', 'w'), ('X', 'x'),
   ('Y', 'y'), ('Z', 'z')]

/-- Model of Python `str.lower` on a single character (ASCII range). -/
def lowerChar (c : Char) : Char :=
  ((upperLowerTable.find? (fun p => p.1 = c)).map Prod.snd).getD c

/-- Model of `re.sub(r"[,\.\?!]", " ", text)` on a single character:
each of the four punctuation marks becomes a space. -/
def punctChar (c : Char) : Char :=
  if c = ',' ∨ c = '.' ∨ c = '?' ∨ c = '!' then ' ' else c

/-- Model of Python `str.strip`: drop leading and trailing whitespace. -/
def stripList (l : List Char) : List Char :=
  ((l.dropWhile isPySpace).reverse.dropWhile isPySpace).reverse

/-- Model of Python `pat in text` (substring containment). -/
def isSub (pat : List Char) : List Char → Bool
  | [] => pat.isEmpty
  | c :: rest => pat.isPrefixOf (c :: rest) || isSub pat rest

/-- Fuel-driven worker for `replaceAll`; the fuel bounds the number of scanned
positions, and `replaceAll` supplies the length of the scanned list, which is
always sufficient. -/
def replaceAux (pat rep : List Char) : Nat → List Char → List Char
  | _, [] => []
  | 0, l => l
  | fuel + 1, c :: rest =>
    if pat.isPrefixOf (c :: rest) && !pat.isEmpty then
      rep ++ replaceAux pat rep fuel ((c :: rest).drop pat.length)
    else
      c :: replaceAux pat rep fuel rest

/-- Model of Python `text.replace(pat, rep)` for a nonempty pattern
(every filler phrase in the source is nonempty): replace each
non-overlapping occurrence, scanning left to right. -/
def replaceAll (pat rep l : List Char) : List Char :=
  if pat.isEmpty then l else replaceAux pat rep l.length l

/-- Accumulator-based worker for `words` (the accumulator holds the current
word reversed). -/
def wordsAux : List Char → List Char → List (List Char)
  | cur, [] => if cur.isEmpty then [] else [cur.reverse]
  | cur, c :: rest =>
    if isPySpace c then
      if cur.isEmpty then wordsAux [] rest else cur.reverse :: wordsAux [] rest
    else
      wordsAux (c :: cur) rest

/-- Model of Python `text.split()`: split on whitespace runs, dropping
empty pieces. -/
def words (l : List Char) : List (List Char) := wordsAux [] l

/-- Model of Python `" ".join(pieces)`. -/
def joinWords : List (List Char) → List Char
  | [] => []
  | [w] => w
  | w :: w2 :: ws => w ++ ' ' :: joinWords (w2 :: ws)

/-- Model of `" ".join(text.split())`: collapse whitespace runs to single
spaces and trim the ends. -/
def collapseWs (l : List Char) : List Char := joinWords (words l)

/-- The filler phrases stripped by the normalizer (ai_core.py, FILLER_PHRASES),
in source order. -/
def FILLER_PHRASES : List (List Char) :=
  [strL "yochan", strL "yo chan",
   strL "please", strL "can you",
   strL "will you", strL "would you",
   strL "uh", strL "umm", strL "um",
   strL "kind of", strL "sort of",
   strL "a little", strL "a bit"]

/-- Model of `normalize_text` (ai_core.py): lowercase and strip, replace the
punctuation `,.?!` by spaces, remove each filler phrase in order as a literal
substring, then collapse whitespace. -/
def normalize_text (l : List Char) : List Char :=
  let t1 := stripList (l.map lowerChar)
  let t2 := t1.map punctChar
  let t3 := FILLER_PHRASES.foldl (fun acc f => replaceAll f [' '] acc) t2
  collapseWs t3

/-! ## Data model: intents and conversation state -/

/-- The closed set of values taken by the `type` tag of an `Intent`
(the string tags appearing in ai_core.py). -/
inductive IType where
  | empty
  | raw_command
  | open_app
  | close_app
  | close_all
  | set_brightness
  | change_brightness
  | set_volume
  | change_volume
  | clipboard_read
  | take_screenshot
  | set_timer
  | set_alarm
deriving DecidableEq

/-- Model of the `Intent` TypedDict of ai_core.py: a type tag, the normalized
text that produced the intent, and the optional per-variant fields. -/
structure Intent where
  type : IType
  raw : List Char := []
  app : Option (List Char) := none
  value : Option Int := none
  delta : Option Int := none
  time_str : Option (List Char) := none
  duration_s : Option Int := none
deriving DecidableEq

/-- Model of `AssistantState` (state.py). -/
structure AssistantState where
  last_action : Option (List Char) := none
  last_app : Option (List Char) := none
  last_brightness_change : Int := 0
  last_volume_change : Int := 0
  recent_commands : List (List Char) := []
deriving DecidableEq

/-- The state produced by the `AssistantState()` dataclass constructor. -/
def initState : AssistantState :=
  { last_action := none, last_app := none, last_brightness_change := 0,
    last_volume_change := 0, recent_commands := [] }

/-- Model of `AssistantState.remember_command` (state.py) with the default
`max_len = 10` used by every caller: append the stripped text (skipping blank
text) and pop the oldest entry when the history exceeds ten entries. -/
def remember_command (st : AssistantState) (text : List Char) : AssistantState :=
  let t := stripList text
  if t.isEmpty then st
  else
    let rc := st.recent_commands ++ [t]
    { st with recent_commands := if rc.length > 10 then rc.tail else rc }

/-- Python truthiness of an optional string: `None` and `""` are falsy. -/
def truthy : Option (List Char) → Bool
  | none => false
  | some s => !s.isEmpty

/-! ## The application lexicon (apps.py) -/

/-- The keys of `APP_COMMANDS` (apps.py) in dictionary insertion order.
The duplicate literal key `'manager'` keeps its first position, as a Python
dict does; the optional user-override file is absent in this repository, so
the built-in table is the whole lexicon.  Only the keys are consulted by
`_match_app_in_text`; the launch commands live behind the Backend boundary. -/
def APP_KEYS : List (List Char) :=
  [strL "firefox", strL "brave", strL "browser", strL "brave browser",
   strL "thunderbird", strL "mail reader",
   strL "vscode", strL "vs code", strL "code", strL "visual studio code",
   strL "visual studio", strL "sublime text", strL "sublime", strL "idle",
   strL "vim",
   strL "gimp", strL "inkscape", strL "blender", strL "photoshop",
   strL "figma", strL "sigma", strL "drawing", strL "pix", strL "xviewer",
   strL "terminal", strL "terminal emulator", strL "file explorer",
   strL "explorer", strL "file manager", strL "settings",
   strL "settings manager", strL "app finder", strL "task manager",
   strL "manager", strL "calculator", strL "calendar", strL "volume control",
   strL "pavucontrol",
   strL "whatsapp", strL "what" ++ apos :: strL "s up", strL "camera",
   strL "cheese", strL "hypnotix", strL "celluloid", strL "rhythmbox",
   strL "warpinator",
   strL "gparted", strL "disks", strL "disk utility", strL "backup",
   strL "drivers", strL "software manager", strL "update manager",
   strL "timeshift", strL "printer", strL "scan", strL "vpn", strL "vpn app",
   strL "firewall", strL "users",
   strL "onboard", strL "dict",
   strL "file roller", strL "archive manager", strL "downloader",
   strL "transmission",
   strL "photos", strL "sketch"]

/-- Insert into a list already sorted by length descending, after all entries
of greater or equal length (so the overall sort is stable, like Python
`sorted(keys, key=len, reverse=True)`). -/
def insertLenDesc (x : List Char) : List (List Char) → List (List Char)
  | [] => [x]
  | y :: ys => if y.length < x.length then x :: y :: ys else y :: insertLenDesc x ys

/-- Stable sort by length, longest first: the model of
`sorted(APP_COMMANDS.keys(), key=len, reverse=True)`. -/
def sortLenDesc (l : List (List Char)) : List (List Char) :=
  l.foldl (fun acc x => insertLenDesc x acc) []

/-- Model of `_match_app_in_text` (ai_core.py): return the first —
hence longest, with ties in insertion order — lexicon key whose lowercase
form occurs in the text as a substring. -/
def matchAppInText (text : List Char) : Option (List Char) :=
  if text.isEmpty then none
  else (sortLenDesc APP_KEYS).find? (fun name => isSub (name.map lowerChar) text)

/-! ## Numeric and time extraction (ai_core.py) -/

/-- Value of a run of decimal digits. -/
def digitsToNat (ds : List Char) : Nat :=
  ds.foldl (fun n c => n * 10 + (c.toNat - 48)) 0

/-- Model of `_extract_number`: the first maximal run of decimal digits,
as matched by `re.search(r"(\d+)", text)`. -/
def extractNumber : List Char → Option Nat
  | [] => none
  | c :: rest =>
    if c.isDigit then some (digitsToNat ((c :: rest).takeWhile Char.isDigit))
    else extractNumber rest

/-- The `time_units` multiplier table of `_extract_time_duration`, in the
alternation order of its regex. -/
def timeUnitList : List (List Char × Nat) :=
  [(strL "second", 1), (strL "seconds", 1), (strL "minute", 60),
   (strL "minutes", 60), (strL "hour", 3600), (strL "hours", 3600)]

/-- Match of `(\d+)\s*(second|seconds|minute|minutes|hour|hours)` anchored at
the head of the list: maximal digit run, maximal whitespace run, then the
first unit word of the alternation that is a prefix of the remainder.
Returns the matched text and the duration in seconds. -/
def matchDurationAt (l : List Char) : Option (List Char × Nat) :=
  let ds := l.takeWhile Char.isDigit
  if ds.isEmpty then none
  else
    let rest1 := l.drop ds.length
    let ws := rest1.takeWhile isPySpace
    let rest2 := rest1.drop ws.length
    match timeUnitList.find? (fun u => u.1.isPrefixOf rest2) with
    | some u => some (ds ++ ws ++ u.1, digitsToNat ds * u.2)
    | none => none

/-- Leftmost match of the duration pattern, as found by `re.search`. -/
def scanDuration : List Char → Option (List Char × Nat)
  | [] => none
  | c :: rest =>
    match matchDurationAt (c :: rest) with
    | some r => some r
    | none => scanDuration rest

/-- Match of `\.?m\.?` anchored at the head of the list (greedy on both
optional dots), returning the matched characters. -/
def matchDotMDot : List Char → Option (List Char)
  | '.' :: 'm' :: '.' :: _ => some (strL ".m.")
  | '.' :: 'm' :: _ => some (strL ".m")
  | 'm' :: '.' :: _ => some (strL "m.")
  | 'm' :: _ => some (strL "m")
  | _ => none

/-- Match of `(a\.?m\.?|p\.?m\.?)` anchored at the head of the list. -/
def matchAmPmAt : List Char → Option (List Char)
  | [] => none
  | c :: rest =>
    if c = 'a' ∨ c = 'p' then (matchDotMDot rest).map (fun m => c :: m)
    else none

/-- Match of `(\d+)(\s*(\d+))?\s*(a\.?m\.?|p\.?m\.?)` anchored at the head of
the list: the optional hour-minute group is tried greedily first, and dropped
(regex backtracking) when the am/pm part cannot follow it. -/
def matchAlarmAt (l : List Char) : Option (List Char) :=
  let d1 := l.takeWhile Char.isDigit
  if d1.isEmpty then none
  else
    let r1 := l.drop d1.length
    let withGroup : Option (List Char) :=
      let ws1 := r1.takeWhile isPySpace
      let r2 := r1.drop ws1.length
      let d2 := r2.takeWhile Char.isDigit
      if d2.isEmpty then none
      else
        let r3 := r2.drop d2.length
        let ws2 := r3.takeWhile isPySpace
        let r4 := r3.drop ws2.length
        (matchAmPmAt r4).map (fun m => d1 ++ ws1 ++ d2 ++ ws2 ++ m)
    match withGroup with
    | some m => some m
    | none =>
      let ws := r1.takeWhile isPySpace
      let r2 := r1.drop ws.length
      (matchAmPmAt r2).map (fun m => d1 ++ ws ++ m)

/-- Leftmost match of the alarm pattern, as found by `re.search`. -/
def scanAlarm : List Char → Option (List Char)
  | [] => none
  | c :: rest =>
    match matchAlarmAt (c :: rest) with
    | some r => some r
    | none => scanAlarm rest

/-- Model of `_extract_time_duration`: the duration pattern first, then the
alarm clock-time pattern (whose duration in seconds is unknown). -/
def extractTimeDuration (l : List Char) : Option (List Char) × Option Nat :=
  match scanDuration l with
  | some r => (some r.1, some r.2)
  | none =>
    match scanAlarm l with
    | some s => (some s, none)
    | none => (none, none)

/-! ## The rule cascade of `detect_intent_offline` (ai_core.py)

Each early-`return` block of the Python function becomes one
`Option Intent`-valued rule; `firstRule` models the first-match-wins
cascade and the final fallback is the default `raw_command` intent.
The pure helpers `matchAppInText` and `extractTimeDuration`, computed once
in the source, are recomputed inside the rules that consume them. -/

/-- Rule: `"close that"` / `"close it"` with a truthy `last_app`. -/
def rulePronounClose (text : List Char) (st : AssistantState) : Option Intent :=
  if (isSub (strL "close that") text || isSub (strL "close it") text)
      && truthy st.last_app then
    some { type := .close_app, app := st.last_app, raw := text }
  else none

/-- Rule: `"open that"` / `"open it again"` with a truthy `last_app`. -/
def rulePronounOpen (text : List Char) (st : AssistantState) : Option Intent :=
  if (isSub (strL "open that") text || isSub (strL "open it again") text)
      && truthy st.last_app then
    some { type := .open_app, app := st.last_app, raw := text }
  else none

/-- Rule: an open/launch verb together with a detected app name. -/
def ruleAppOpen (text : List Char) : Option Intent :=
  if ([strL "open ", strL "launch ", strL "start ", strL "run "].any
        (fun w => isSub w text)) && truthy (matchAppInText text) then
    some { type := .open_app, app := matchAppInText text, raw := text }
  else none

/-- Rule: a close/quit verb together with a detected app name. -/
def ruleAppClose (text : List Char) : Option Intent :=
  if ([strL "close ", strL "quit ", strL "exit ", strL "kill "].any
        (fun w => isSub w text)) && truthy (matchAppInText text) then
    some { type := .close_app, app := matchAppInText text, raw := text }
  else none

/-- Rule: `"close all"` / `"kill all"`. -/
def ruleCloseAll (text : List Char) : Option Intent :=
  if isSub (strL "close all") text || isSub (strL "kill all") text then
    some { type := .close_all, raw := text }
  else none

/-- The relative-up brightness phrases, in source order. -/
def brightnessUpPhrases : List (List Char) :=
  [strL "increase brightness", strL "raise brightness", strL "more brightness",
   strL "bit brighter", strL "little brighter", strL "brighter"]

/-- The relative-down brightness phrases, in source order. -/
def brightnessDownPhrases : List (List Char) :=
  [strL "decrease brightness", strL "lower brightness", strL "reduce brightness",
   strL "dim it", strL "bit darker", strL "little darker", strL "darker"]

/-- The brightness block: gated on `"brightness"`, `"brighter"` or `"darker"`.
The absolute form needs `"set"` and `"to"` and an extractable number (with
no number it falls through to the relative checks, as in the source); the
relative forms take the first number in the text, else the remembered
nonzero delta, else the default 10, with the sign forced by the direction. -/
def ruleBrightness (text : List Char) (st : AssistantState) : Option Intent :=
  if isSub (strL "brightness") text || isSub (strL "brighter") text
      || isSub (strL "darker") text then
    match (if isSub (strL "set") text && isSub (strL "to") text
           then extractNumber text else none) with
    | some v => some { type := .set_brightness, value := some (v : Int), raw := text }
    | none =>
      if brightnessUpPhrases.any (fun p => isSub p text) then
        let d : Int :=
          match extractNumber text with
          | some n => (n : Int)
          | none =>
            if st.last_brightness_change ≠ 0 then st.last_brightness_change else 10
        some { type := .change_brightness, delta := some |d|, raw := text }
      else if brightnessDownPhrases.any (fun p => isSub p text) then
        let d : Int :=
          match extractNumber text with
          | some n => (n : Int)
          | none =>
            if st.last_brightness_change ≠ 0 then st.last_brightness_change else 10
        some { type := .change_brightness, delta := some (-|d|), raw := text }
      else none
  else none

/-- The relative-up volume phrases, in source order. -/
def volumeUpPhrases : List (List Char) :=
  [strL "increase volume", strL "raise volume", strL "turn it up",
   strL "bit louder", strL "little louder", strL "louder"]

/-- The relative-down volume phrases, in source order. -/
def volumeDownPhrases : List (List Char) :=
  [strL "decrease volume", strL "lower volume", strL "turn it down",
   strL "bit quieter", strL "little quieter", strL "quieter"]

/-- The volume block: gated on `"volume"`, `"sound"`, `"louder"` or
`"quieter"`; the `"mute"` check comes first, then the absolute and relative
forms as for brightness, with default magnitude 5. -/
def ruleVolume (text : List Char) (st : AssistantState) : Option Intent :=
  if isSub (strL "volume") text || isSub (strL "sound") text
      || isSub (strL "louder") text || isSub (strL "quieter") text then
    if isSub (strL "mute") text then
      some { type := .set_volume, value := some 0, raw := text }
    else
      match (if isSub (strL "set") text && isSub (strL "to") text
             then extractNumber text else none) with
      | some v => some { type := .set_volume, value := some (v : Int), raw := text }
      | none =>
        if volumeUpPhrases.any (fun p => isSub p text) then
          let d : Int :=
            match extractNumber text with
            | some n => (n : Int)
            | none =>
              if st.last_volume_change ≠ 0 then st.last_volume_change else 5
          some { type := .change_volume, delta := some |d|, raw := text }
        else if volumeDownPhrases.any (fun p => isSub p text) then
          let d : Int :=
            match extractNumber text with
            | some n => (n : Int)
            | none =>
              if st.last_volume_change ≠ 0 then st.last_volume_change else 5
          some { type := .change_volume, delta := some (-|d|), raw := text }
        else none
  else none

/-- Rule: `"clipboard"` together with `"show"`, `"read"` or `"what is"`. -/
def ruleClipboard (text : List Char) : Option Intent :=
  if isSub (strL "clipboard") text
      && (isSub (strL "show") text || isSub (strL "read") text
          || isSub (strL "what is") text) then
    some { type := .clipboard_read, raw := text }
  else none

/-- Rule: any of the screenshot trigger words. -/
def ruleScreenshot (text : List Char) : Option Intent :=
  if [strL "screenshot", strL "capture screen", strL "print screen",
      strL "take a picture"].any (fun w => isSub w text) then
    some { type := .take_screenshot, raw := text }
  else none

/-- Rule: a timer trigger phrase together with an extracted duration. -/
def ruleTimer (text : List Char) : Option Intent :=
  if isSub (strL "set a timer") text || isSub (strL "start a timer") text
      || isSub (strL "timer for") text then
    match (extractTimeDuration text).2 with
    | some d => some { type := .set_timer, time_str := (extractTimeDuration text).1,
                       duration_s := some (d : Int), raw := text }
    | none => none
  else none

/-- Rule: an alarm trigger phrase together with an extracted time string. -/
def ruleAlarm (text : List Char) : Option Intent :=
  if isSub (strL "set an alarm") text || isSub (strL "alarm for") text then
    match (extractTimeDuration text).1 with
    | some t => some { type := .set_alarm, time_str := some t, raw := text }
    | none => none
  else none

/-- First-match-wins over the rule cascade (the early `return`s of the
source function). -/
def firstRule : List (Option Intent) → Option Intent
  | [] => none
  | some i :: _ => some i
  | none :: rest => firstRule rest

/-- Model of `detect_intent_offline` (ai_core.py): empty input yields the
`empty` intent; otherwise the rules fire in source order and the fallback is
a `raw_command` intent carrying the text. -/
def detect_intent_offline (text : List Char) (st : AssistantState) : Intent :=
  if text.isEmpty then { type := .empty, raw := text }
  else
    (firstRule
      [rulePronounClose text st, rulePronounOpen text st, ruleAppOpen text,
       ruleAppClose text, ruleCloseAll text, ruleBrightness text st,
       ruleVolume text st, ruleClipboard text, ruleScreenshot text,
       ruleTimer text, ruleAlarm text]).getD
      { type := .raw_command, raw := text }

/-! ## The dispatcher: `execute_intent` (ai_core.py)

The Backend capability calls (the handlers imported from handlers.py) are
modelled as events: `execute_intent` returns the result message, the updated
state and the list of Backend calls it issued.  A handler's return string is
represented by `ExecMsg.backend` applied to the call that produced it; the
two messages produced by `execute_intent` itself without any Backend call
are `ExecMsg.fixed` strings. -/

/-- One call against the Backend capability interface. -/
inductive BackendCall where
  | appLaunch (app : List Char)
  | appClose (app : List Char)
  | closeAll
  | brightnessAbs (value : Int)
  | brightnessRel (delta : Int)
  | volumeAbs (value : Int)
  | volumeRel (delta : Int)
  | clipboardRead
  | screenshot
  | timerSet (seconds : Int)
  | alarmSet (timeStr : List Char)
  | execCommand (cmd : List Char)
deriving DecidableEq

/-- The user-facing result string of a dispatch: either whatever the named
Backend call returned, or a fixed literal of `execute_intent`. -/
inductive ExecMsg where
  | backend (call : BackendCall)
  | fixed (s : List Char)
deriving DecidableEq

/-- The outcome of one `execute_intent` invocation. -/
structure ExecResult where
  msg : ExecMsg
  state : AssistantState
  calls : List BackendCall
deriving DecidableEq

/-- The fixed string `"I couldn't understand that (offline)."`. -/
def couldntUnderstandMsg : List Char :=
  strL "I couldn" ++ apos :: strL "t understand that (offline)."

/-- Model of `execute_intent` (ai_core.py): record the raw text in the
history, then dispatch on the intent type with the same guards and in the
same order as the source's if-chain, clamping absolute values to [0, 100]
and updating the remembered deltas. -/
def execute_intent (intent : Intent) (st0 : AssistantState) : ExecResult :=
  let st := remember_command st0 intent.raw
  if intent.type = .open_app ∧ truthy intent.app then
    let app := intent.app.getD []
    { msg := .backend (.appLaunch app),
      state := { st with last_action := some (strL "open_app"), last_app := some app },
      calls := [.appLaunch app] }
  else if intent.type = .close_app ∧ truthy intent.app then
    let app := intent.app.getD []
    { msg := .backend (.appClose app),
      state := { st with last_action := some (strL "close_app"), last_app := some app },
      calls := [.appClose app] }
  else if intent.type = .close_all then
    { msg := .backend .closeAll,
      state := { st with last_action := some (strL "close_all") },
      calls := [.closeAll] }
  else if intent.type = .set_brightness ∧ intent.value.isSome then
    let value := max 0 (min 100 (intent.value.getD 0))
    { msg := .backend (.brightnessAbs value),
      state := { st with
                 last_action := some (strL "set_brightness")
                 last_brightness_change := 0 },
      calls := [.brightnessAbs value] }
  else if intent.type = .change_brightness ∧ intent.delta.isSome then
    let delta := intent.delta.getD 0
    { msg := .backend (.brightnessRel delta),
      state := { st with
                 last_action := some (strL "change_brightness")
                 last_brightness_change := delta },
      calls := [.brightnessRel delta] }
  else if intent.type = .set_volume ∧ intent.value.isSome then
    let value := max 0 (min 100 (intent.value.getD 0))
    { msg := .backend (.volumeAbs value),
      state := { st with
                 last_action := some (strL "set_volume")
                 last_volume_change := 0 },
      calls := [.volumeAbs value] }
  else if intent.type = .change_volume ∧ intent.delta.isSome then
    let delta := intent.delta.getD 0
    { msg := .backend (.volumeRel delta),
      state := { st with
                 last_action := some (strL "change_volume")
                 last_volume_change := delta },
      calls := [.volumeRel delta] }
  else if intent.type = .clipboard_read then
    { msg := .backend .clipboardRead,
      state := { st with last_action := some (strL "clipboard_read") },
      calls := [.clipboardRead] }
  else if intent.type = .take_screenshot then
    { msg := .backend .screenshot,
      state := { st with last_action := some (strL "take_screenshot") },
      calls := [.screenshot] }
  else if intent.type = .set_timer ∧ intent.duration_s.isSome then
    let duration := intent.duration_s.getD 0
    { msg := .backend (.timerSet duration),
      state := { st with last_action := some (strL "set_timer") },
      calls := [.timerSet duration] }
  else if intent.type = .set_alarm ∧ intent.time_str.isSome then
    let t := intent.time_str.getD []
    { msg := .backend (.alarmSet t),
      state := { st with last_action := some (strL "set_alarm") },
      calls := [.alarmSet t] }
  else if intent.type = .raw_command then
    if intent.raw.isEmpty then
      { msg := .fixed (strL "No command provided."),
        state := { st with last_action := some (strL "raw_command") },
        calls := [] }
    else
      { msg := .backend (.execCommand intent.raw),
        state := { st with last_action := some (strL "raw_command") },
        calls := [.execCommand intent.raw] }
  else if intent.type = .empty then
    { msg := .fixed (strL "No speech detected."), state := st, calls := [] }
  else
    { msg := .fixed couldntUnderstandMsg, state := st, calls := [] }

/-- A word produced by `words`: nonempty and free of whitespace. -/
def goodWord (w : List Char) : Prop :=
  w ≠ [] ∧ ∀ c ∈ w, isPySpace c = false

/-- The shape invariant satisfied by every intent a cascade rule returns. -/
def IntentOK (t : List Char) (i : Intent) : Prop :=
  i.raw = t ∧ i.type ≠ .empty ∧
    (i.type = .set_timer → ∃ n : Nat, i.duration_s = some (n : Int))

/-- Holds when none of the cascade rules fires, so that the classifier falls
through to the default `raw_command` intent. -/
def noRuleMatches (t : List Char) (st : AssistantState) : Prop :=
  rulePronounClose t st = none ∧ rulePronounOpen t st = none ∧
  ruleAppOpen t = none ∧ ruleAppClose t = none ∧ ruleCloseAll t = none ∧
  ruleBrightness t st = none ∧ ruleVolume t st = none ∧
  ruleClipboard t = none ∧ ruleScreenshot t = none ∧
  ruleTimer t = none ∧ ruleAlarm t = none

/-! ## Properties of the normalizer

`normalize_text` is not idempotent in general (punctuation removal and
whitespace collapsing can manufacture a filler phrase that only the next
pass would remove), but it is idempotent on every input whose normal form
contains no filler phrase.  The lemmas below establish the stability of each
stage of the pipeline on such normal forms. -/

theorem lowerChar_idem (c : Char) : lowerChar (lowerChar c) = lowerChar c := by
  unfold lowerChar
  cases h : upperLowerTable.find? (fun p => p.1 = c) with
  | none => simp [h]
  | some q =>
    simp only [h, Option.map_some', Option.getD_some]
    have hmem : q.2 ∈ upperLowerTable.map Prod.snd :=
      List.mem_map_of_mem Prod.snd (List.mem_of_find?_eq_some h)
    have hnone : ∀ d ∈ upperLowerTable.map Prod.snd,
        upperLowerTable.find? (fun p => p.1 = d) = none := by decide
    simp [hnone q.2 hmem]

theorem punctChar_idem (c : Char) : punctChar (punctChar c) = punctChar c := by
  by_cases h : c = ',' ∨ c = '.' ∨ c = '?' ∨ c = '!'
  · simp [punctChar, h]
  · simp [punctChar, h]

theorem lowerChar_space : lowerChar ' ' = ' ' := by decide

theorem punctChar_space : punctChar ' ' = ' ' := by decide

/-- A map that fixes every element of a list fixes the list. -/
theorem map_id_of {α : Type} (g : α → α) (l : List α) (h : ∀ c ∈ l, g c = c) :
    l.map g = l := by
  induction l with
  | nil => rfl
  | cons a t ih =>
    rw [List.map_cons, h a (List.mem_cons_self a t),
      ih (fun c hc => h c (List.mem_cons_of_mem a hc))]

theorem mem_stripList {c : Char} {l : List Char} (h : c ∈ stripList l) : c ∈ l := by
  unfold stripList at h
  rw [List.mem_reverse] at h
  have h1 := (List.dropWhile_sublist (l := (l.dropWhile isPySpace).reverse) isPySpace).subset h
  rw [List.mem_reverse] at h1
  exact (List.dropWhile_sublist isPySpace).subset h1

theorem mem_replaceAux {c : Char} {pat rep : List Char} :
    ∀ (fuel : Nat) (l : List Char), c ∈ replaceAux pat rep fuel l → c ∈ l ∨ c ∈ rep := by
  intro fuel
  induction fuel with
  | zero =>
    intro l h
    cases l with
    | nil => exact absurd h (by simp [replaceAux])
    | cons a t => exact Or.inl (by simpa [replaceAux] using h)
  | succ n ih =>
    intro l h
    cases l with
    | nil => exact absurd h (by simp [replaceAux])
    | cons a t =>
      rw [replaceAux] at h
      by_cases hc : pat.isPrefixOf (a :: t) && !pat.isEmpty
      · rw [if_pos hc, List.mem_append] at h
        rcases h with h | h
        · exact Or.inr h
        · rcases ih _ h with h1 | h1
          · exact Or.inl (List.drop_subset _ _ h1)
          · exact Or.inr h1
      · rw [if_neg hc, List.mem_cons] at h
        rcases h with h | h
        · exact Or.inl (h ▸ List.mem_cons_self a t)
        · rcases ih _ h with h1 | h1
          · exact Or.inl (List.mem_cons_of_mem a h1)
          · exact Or.inr h1

theorem mem_replaceAll {c : Char} {pat rep l : List Char}
    (h : c ∈ replaceAll pat rep l) : c ∈ l ∨ c ∈ rep := by
  unfold replaceAll at h
  by_cases hp : pat.isEmpty
  · rw [if_pos hp] at h; exact Or.inl h
  · rw [if_neg hp] at h; exact mem_replaceAux _ _ h

theorem mem_fillerFold {c : Char} :
    ∀ (fl : List (List Char)) (s : List Char),
      c ∈ fl.foldl (fun acc f => replaceAll f [' '] acc) s → c ∈ s ∨ c = ' ' := by
  intro fl
  induction fl with
  | nil => intro s h; exact Or.inl h
  | cons f ft ih =>
    intro s h
    rcases ih (replaceAll f [' '] s) h with h1 | h1
    · rcases mem_replaceAll h1 with h2 | h2
      · exact Or.inl h2
      · exact Or.inr (by simpa using h2)
    · exact Or.inr h1

theorem mem_wordsAux :
    ∀ (l acc : List Char) (w : List Char), w ∈ wordsAux acc l → ∀ d ∈ w, d ∈ acc ∨ d ∈ l := by
  intro l
  induction l with
  | nil =>
    intro acc w hw d hd
    rw [wordsAux] at hw
    by_cases h : acc.isEmpty
    · simp [h] at hw
    · rw [if_neg h] at hw
      rcases List.mem_singleton.mp hw with h1
      exact Or.inl (by rw [h1] at hd; exact List.mem_reverse.mp hd)
  | cons a t ih =>
    intro acc w hw d hd
    rw [wordsAux] at hw
    by_cases hsp : isPySpace a
    · rw [if_pos hsp] at hw
      by_cases hacc : acc.isEmpty
      · rw [if_pos hacc] at hw
        rcases ih [] w hw d hd with h1 | h1
        · exact absurd h1 (List.not_mem_nil d)
        · exact Or.inr (List.mem_cons_of_mem a h1)
      · rw [if_neg hacc, List.mem_cons] at hw
        rcases hw with h1 | h1
        · exact Or.inl (by rw [h1] at hd; exact List.mem_reverse.mp hd)
        · rcases ih [] w h1 d hd with h2 | h2
          · exact absurd h2 (List.not_mem_nil d)
          · exact Or.inr (List.mem_cons_of_mem a h2)
    · rw [if_neg hsp] at hw
      rcases ih (a :: acc) w hw d hd with h1 | h1
      · rcases List.mem_cons.mp h1 with h2 | h2
        · exact Or.inr (h2 ▸ List.mem_cons_self a t)
        · exact Or.inl h2
      · exact Or.inr (List.mem_cons_of_mem a h1)

theorem mem_joinWords {c : Char} :
    ∀ (ws : List (List Char)), c ∈ joinWords ws → (∃ w ∈ ws, c ∈ w) ∨ c = ' ' := by
  intro ws
  induction ws with
  | nil => intro h; exact absurd h (List.not_mem_nil c)
  | cons w wt ih =>
    intro h
    cases wt with
    | nil =>
      rw [joinWords] at h
      exact Or.inl ⟨w, List.mem_singleton_self w, h⟩
    | cons w2 ws2 =>
      rw [joinWords, List.mem_append, List.mem_cons] at h
      rcases h with h | h | h
      · exact Or.inl ⟨w, List.mem_cons_self _ _, h⟩
      · exact Or.inr h
      · rcases ih h with ⟨u, hu, hcu⟩ | h1
        · exact Or.inl ⟨u, List.mem_cons_of_mem _ hu, hcu⟩
        · exact Or.inr h1

theorem mem_collapseWs {c : Char} {l : List Char} (h : c ∈ collapseWs l) :
    c ∈ l ∨ c = ' ' := by
  unfold collapseWs at h
  rcases mem_joinWords _ h with ⟨w, hw, hcw⟩ | h1
  · rcases mem_wordsAux l [] w hw c hcw with h2 | h2
    · exact absurd h2 (List.not_mem_nil c)
    · exact Or.inl h2
  · exact Or.inr h1

/-- Every character of a normal form is a space or the image of a character
under `punctChar` after `lowerChar`. -/
theorem normalize_char_shape {c : Char} {x : List Char} (h : c ∈ normalize_text x) :
    c = ' ' ∨ ∃ e, c = punctChar (lowerChar e) := by
  unfold normalize_text at h
  rcases mem_collapseWs h with h1 | h1
  · rcases mem_fillerFold _ _ h1 with h2 | h2
    · rcases List.mem_map.mp h2 with ⟨d, hd, hdc⟩
      have hd2 : d ∈ (x.map lowerChar) := mem_stripList hd
      rcases List.mem_map.mp hd2 with ⟨e, _, hde⟩
      exact Or.inr ⟨e, by rw [← hdc, ← hde]⟩
    · exact Or.inl h2
  · exact Or.inl h1

theorem normalize_lower_fixed {c : Char} {x : List Char} (h : c ∈ normalize_text x) :
    lowerChar c = c := by
  rcases normalize_char_shape h with h1 | ⟨e, he⟩
  · rw [h1]; exact lowerChar_space
  · rw [he]
    unfold punctChar
    by_cases hp : lowerChar e = ',' ∨ lowerChar e = '.' ∨ lowerChar e = '?' ∨ lowerChar e = '!'
    · rw [if_pos hp]; exact lowerChar_space
    · rw [if_neg hp]; exact lowerChar_idem e

theorem normalize_punct_fixed {c : Char} {x : List Char} (h : c ∈ normalize_text x) :
    punctChar c = c := by
  rcases normalize_char_shape h with h1 | ⟨e, he⟩
  · rw [h1]; exact punctChar_space
  · rw [he]; exact punctChar_idem (lowerChar e)

theorem wordsAux_good :
    ∀ (l acc : List Char), (∀ c ∈ acc, isPySpace c = false) →
      ∀ w ∈ wordsAux acc l, goodWord w := by
  intro l
  induction l with
  | nil =>
    intro acc hacc w hw
    rw [wordsAux] at hw
    by_cases h : acc.isEmpty
    · simp [h] at hw
    · rw [if_neg h] at hw
      rw [List.mem_singleton.mp hw]
      refine ⟨by simpa using h, fun c hc => hacc c (List.mem_reverse.mp hc)⟩
  | cons a t ih =>
    intro acc hacc w hw
    rw [wordsAux] at hw
    by_cases hsp : isPySpace a
    · rw [if_pos hsp] at hw
      by_cases hacc2 : acc.isEmpty
      · rw [if_pos hacc2] at hw
        exact ih [] (by simp) w hw
      · rw [if_neg hacc2, List.mem_cons] at hw
        rcases hw with h1 | h1
        · rw [h1]
          refine ⟨by simpa using hacc2, fun c hc => hacc c (List.mem_reverse.mp hc)⟩
        · exact ih [] (by simp) w h1
    · rw [if_neg hsp] at hw
      refine ih (a :: acc) ?_ w hw
      intro c hc
      rcases List.mem_cons.mp hc with h1 | h1
      · rw [h1]; simpa using hsp
      · exact hacc c h1

theorem words_good {l : List Char} : ∀ w ∈ words l, goodWord w :=
  wordsAux_good l [] (by simp)

theorem joinWords_ne_nil {w : List Char} (ws : List (List Char)) (hw : w ≠ []) :
    joinWords (w :: ws) ≠ [] := by
  cases ws with
  | nil => exact hw
  | cons w2 ws2 =>
    rw [joinWords]
    exact fun h => hw (List.append_eq_nil.mp h).1

theorem joinWords_head? {w : List Char} (ws : List (List Char)) (hw : w ≠ []) :
    (joinWords (w :: ws)).head? = w.head? := by
  cases ws with
  | nil => rfl
  | cons w2 ws2 =>
    rw [joinWords]
    cases w with
    | nil => exact absurd rfl hw
    | cons a t => rfl

theorem joinWords_getLast? :
    ∀ (ws : List (List Char)), (∀ w ∈ ws, goodWord w) →
      ∀ c, (joinWords ws).getLast? = some c → isPySpace c = false := by
  intro ws
  induction ws with
  | nil => intro _ c hc; exact absurd hc (by simp [joinWords])
  | cons w wt ih =>
    intro hall c hc
    cases wt with
    | nil =>
      have hg : goodWord w := hall w (List.mem_singleton_self w)
      have : c ∈ (joinWords [w]).getLast? := hc
      rcases List.mem_getLast?_eq_getLast this with ⟨h1, h2⟩
      exact hg.2 c (h2 ▸ List.getLast_mem h1)
    | cons w2 ws2 =>
      rw [joinWords] at hc
      have hne : joinWords (w2 :: ws2) ≠ [] :=
        joinWords_ne_nil ws2 (hall w2 (List.mem_cons_of_mem _ (List.mem_cons_self _ _))).1
      have hne2 : (' ' :: joinWords (w2 :: ws2) : List Char) ≠ [] := by simp
      rw [List.getLast?_append_of_ne_nil _ hne2] at hc
      rw [List.getLast?_cons] at hc
      cases hgl : (joinWords (w2 :: ws2)).getLast? with
      | none => exact absurd (List.getLast?_eq_none_iff.mp hgl) hne
      | some d =>
        rw [hgl] at hc
        have hcd : d = c := by simpa using hc
        exact hcd ▸ ih (fun u hu => hall u (List.mem_cons_of_mem _ hu)) d hgl

theorem dropWhile_eq_self_of_head {p : Char → Bool} {l : List Char}
    (h : ∀ c, l.head? = some c → p c = false) : l.dropWhile p = l := by
  cases l with
  | nil => rfl
  | cons a t => simp [List.dropWhile_cons, h a rfl]

/-- `stripList` fixes every whitespace-collapsed string. -/
theorem stripList_collapseWs (l : List Char) :
    stripList (collapseWs l) = collapseWs l := by
  unfold collapseWs stripList
  cases hw : words l with
  | nil => rfl
  | cons w wt =>
    have hall : ∀ u ∈ words l, goodWord u := words_good
    have hgw : goodWord w := hall w (hw ▸ List.mem_cons_self w wt)
    rw [dropWhile_eq_self_of_head (p := isPySpace) (l := joinWords (w :: wt)) ?hd]
    case hd =>
      intro c hc
      rw [joinWords_head? wt hgw.1] at hc
      cases w with
      | nil => exact absurd rfl hgw.1
      | cons a t =>
        have hca : a = c := by simpa using hc
        exact hca ▸ hgw.2 a (List.mem_cons_self a t)
    rw [dropWhile_eq_self_of_head (p := isPySpace)
      (l := (joinWords (w :: wt)).reverse) ?tl]
    case tl =>
      intro c hc
      rw [List.head?_reverse] at hc
      exact joinWords_getLast? (w :: wt) (hw ▸ hall) c hc
    rw [List.reverse_reverse]

theorem wordsAux_append_word :
    ∀ (w : List Char), (∀ c ∈ w, isPySpace c = false) →
      ∀ (acc l : List Char), wordsAux acc (w ++ l) = wordsAux (w.reverse ++ acc) l := by
  intro w
  induction w with
  | nil => intro _ acc l; simp
  | cons a t ih =>
    intro hgood acc l
    have ha : isPySpace a = false := hgood a (List.mem_cons_self a t)
    rw [List.cons_append, wordsAux, if_neg (by simp [ha])]
    rw [ih (fun c hc => hgood c (List.mem_cons_of_mem a hc)) (a :: acc) l]
    simp

/-- `words` is a left inverse of `joinWords` on lists of good words. -/
theorem words_joinWords :
    ∀ (ws : List (List Char)), (∀ w ∈ ws, goodWord w) → words (joinWords ws) = ws := by
  intro ws
  induction ws with
  | nil => intro _; rfl
  | cons w wt ih =>
    intro hall
    have hgw : goodWord w := hall w (List.mem_cons_self w wt)
    cases wt with
    | nil =>
      show wordsAux [] (joinWords [w]) = [w]
      have : joinWords [w] = w ++ [] := by simp [joinWords]
      rw [this, wordsAux_append_word w hgw.2 [] []]
      rw [wordsAux, List.append_nil]
      rw [if_neg (by simpa using fun h => hgw.1 (List.reverse_eq_nil_iff.mp h))]
      rw [List.reverse_reverse]
    | cons w2 ws2 =>
      show wordsAux [] (joinWords (w :: w2 :: ws2)) = w :: w2 :: ws2
      rw [joinWords, wordsAux_append_word w hgw.2 [] (' ' :: joinWords (w2 :: ws2))]
      rw [wordsAux, if_pos (by decide)]
      rw [if_neg (by simpa using fun h => hgw.1 (List.reverse_eq_nil_iff.mp h))]
      rw [List.append_nil, List.reverse_reverse]
      exact congrArg (w :: ·) (ih (fun u hu => hall u (List.mem_cons_of_mem _ hu)))

theorem collapseWs_idem (l : List Char) : collapseWs (collapseWs l) = collapseWs l := by
  show joinWords (words (joinWords (words l))) = joinWords (words l)
  rw [words_joinWords (words l) words_good]

theorem replaceAux_no_occurrence {pat rep : List Char} :
    ∀ (fuel : Nat) (l : List Char), isSub pat l = false → replaceAux pat rep fuel l = l := by
  intro fuel
  induction fuel with
  | zero =>
    intro l _
    cases l with
    | nil => rfl
    | cons a t => rfl
  | succ n ih =>
    intro l hsub
    cases l with
    | nil => rfl
    | cons a t =>
      rw [isSub, Bool.or_eq_false_iff] at hsub
      rw [replaceAux, if_neg (by simp [hsub.1]), ih t hsub.2]

theorem replaceAll_no_occurrence {pat rep l : List Char}
    (h : isSub pat l = false) : replaceAll pat rep l = l := by
  unfold replaceAll
  by_cases hp : pat.isEmpty
  · rw [if_pos hp]
  · rw [if_neg hp]; exact replaceAux_no_occurrence _ l h

theorem fillerFold_no_occurrence :
    ∀ (fl : List (List Char)) (s : List Char), (∀ f ∈ fl, isSub f s = false) →
      fl.foldl (fun acc f => replaceAll f [' '] acc) s = s := by
  intro fl
  induction fl with
  | nil => intro s _; rfl
  | cons f ft ih =>
    intro s hall
    rw [List.foldl_cons, replaceAll_no_occurrence (hall f (List.mem_cons_self f ft))]
    exact ih s (fun g hg => hall g (List.mem_cons_of_mem f hg))

/-- `normalize_text` fixes every one of its normal forms that contains no
filler phrase (the second pass finds nothing left to change). -/
theorem normalize_fixed_of_no_filler (x : List Char)
    (hf : ∀ f ∈ FILLER_PHRASES, isSub f (normalize_text x) = false) :
    normalize_text (normalize_text x) = normalize_text x := by
  have hlower : (normalize_text x).map lowerChar = normalize_text x :=
    map_id_of lowerChar _ (fun c hc => normalize_lower_fixed hc)
  have hpunct : (normalize_text x).map punctChar = normalize_text x :=
    map_id_of punctChar _ (fun c hc => normalize_punct_fixed hc)
  have hstrip : stripList (normalize_text x) = normalize_text x := by
    show stripList (collapseWs _) = _
    exact stripList_collapseWs _
  conv_lhs => rw [normalize_text]
  rw [hlower, hstrip, hpunct, fillerFold_no_occurrence _ _ hf]
  show collapseWs (collapseWs _) = _
  exact collapseWs_idem _

/-! ## Shape of classified intents

Every rule of the cascade returns an intent that carries the input text in
`raw`, is never the `empty` intent, and — in the one rule that can produce
`set_timer` — stores a duration obtained as a natural number of seconds. -/

theorem intentOK_of_plain {t : List Char} {i : Intent} (hraw : i.raw = t)
    (hty : i.type ≠ .empty) (hti : i.type ≠ .set_timer) : IntentOK t i :=
  ⟨hraw, hty, fun h => absurd h hti⟩

theorem rulePronounClose_ok {t : List Char} {st : AssistantState} {i : Intent}
    (h : rulePronounClose t st = some i) : IntentOK t i := by
  unfold rulePronounClose at h
  split at h
  · cases h; exact intentOK_of_plain rfl (fun hh => nomatch hh) (fun hh => nomatch hh)
  · exact absurd h (by simp)

theorem rulePronounOpen_ok {t : List Char} {st : AssistantState} {i : Intent}
    (h : rulePronounOpen t st = some i) : IntentOK t i := by
  unfold rulePronounOpen at h
  split at h
  · cases h; exact intentOK_of_plain rfl (fun hh => nomatch hh) (fun hh => nomatch hh)
  · exact absurd h (by simp)

theorem ruleAppOpen_ok {t : List Char} {i : Intent}
    (h : ruleAppOpen t = some i) : IntentOK t i := by
  unfold ruleAppOpen at h
  split at h
  · cases h; exact intentOK_of_plain rfl (fun hh => nomatch hh) (fun hh => nomatch hh)
  · exact absurd h (by simp)

theorem ruleAppClose_ok {t : List Char} {i : Intent}
    (h : ruleAppClose t = some i) : IntentOK t i := by
  unfold ruleAppClose at h
  split at h
  · cases h; exact intentOK_of_plain rfl (fun hh => nomatch hh) (fun hh => nomatch hh)
  · exact absurd h (by simp)

theorem ruleCloseAll_ok {t : List Char} {i : Intent}
    (h : ruleCloseAll t = some i) : IntentOK t i := by
  unfold ruleCloseAll at h
  split at h
  · cases h; exact intentOK_of_plain rfl (fun hh => nomatch hh) (fun hh => nomatch hh)
  · exact absurd h (by simp)

theorem ruleBrightness_ok {t : List Char} {st : AssistantState} {i : Intent}
    (h : ruleBrightness t st = some i) : IntentOK t i := by
  unfold ruleBrightness at h
  split at h
  · split at h
    · cases h; exact intentOK_of_plain rfl (fun hh => nomatch hh) (fun hh => nomatch hh)
    · split at h
      · cases h; exact intentOK_of_plain rfl (fun hh => nomatch hh) (fun hh => nomatch hh)
      · split at h
        · cases h; exact intentOK_of_plain rfl (fun hh => nomatch hh) (fun hh => nomatch hh)
        · exact absurd h (by simp)
  · exact absurd h (by simp)

theorem ruleVolume_ok {t : List Char} {st : AssistantState} {i : Intent}
    (h : ruleVolume t st = some i) : IntentOK t i := by
  unfold ruleVolume at h
  split at h
  · split at h
    · cases h; exact intentOK_of_plain rfl (fun hh => nomatch hh) (fun hh => nomatch hh)
    · split at h
      · cases h; exact intentOK_of_plain rfl (fun hh => nomatch hh) (fun hh => nomatch hh)
      · split at h
        · cases h; exact intentOK_of_plain rfl (fun hh => nomatch hh) (fun hh => nomatch hh)
        · split at h
          · cases h; exact intentOK_of_plain rfl (fun hh => nomatch hh) (fun hh => nomatch hh)
          · exact absurd h (by simp)
  · exact absurd h (by simp)

theorem ruleClipboard_ok {t : List Char} {i : Intent}
    (h : ruleClipboard t = some i) : IntentOK t i := by
  unfold ruleClipboard at h
  split at h
  · cases h; exact intentOK_of_plain rfl (fun hh => nomatch hh) (fun hh => nomatch hh)
  · exact absurd h (by simp)

theorem ruleScreenshot_ok {t : List Char} {i : Intent}
    (h : ruleScreenshot t = some i) : IntentOK t i := by
  unfold ruleScreenshot at h
  split at h
  · cases h; exact intentOK_of_plain rfl (fun hh => nomatch hh) (fun hh => nomatch hh)
  · exact absurd h (by simp)

theorem ruleTimer_ok {t : List Char} {i : Intent}
    (h : ruleTimer t = some i) : IntentOK t i := by
  unfold ruleTimer at h
  split at h
  · split at h
    · cases h
      exact And.intro rfl (And.intro (fun hh => nomatch hh)
        (fun _ => Exists.intro _ rfl))
    · exact absurd h (by simp)
  · exact absurd h (by simp)

theorem ruleAlarm_ok {t : List Char} {i : Intent}
    (h : ruleAlarm t = some i) : IntentOK t i := by
  unfold ruleAlarm at h
  split at h
  · split at h
    · cases h; exact intentOK_of_plain rfl (fun hh => nomatch hh) (fun hh => nomatch hh)
    · exact absurd h (by simp)
  · exact absurd h (by simp)

theorem firstRule_eq_some :
    ∀ (L : List (Option Intent)) (i : Intent),
      firstRule L = some i → ∃ o ∈ L, o = some i := by
  intro L
  induction L with
  | nil => intro i h; exact absurd h (by simp [firstRule])
  | cons o rest ih =>
    intro i h
    cases o with
    | some j =>
      rw [firstRule] at h
      exact ⟨some j, List.mem_cons_self _ _, h⟩
    | none =>
      rw [firstRule] at h
      rcases ih i h with ⟨o2, ho2, he⟩
      exact ⟨o2, List.mem_cons_of_mem _ ho2, he⟩

/-- Every intent the classifier produces on nonempty input satisfies the
shape invariant. -/
theorem detect_intent_ok (t : List Char) (st : AssistantState) (hne : t ≠ []) :
    IntentOK t (detect_intent_offline t st) := by
  unfold detect_intent_offline
  rw [if_neg (by simpa using hne)]
  cases hfr : firstRule
      [rulePronounClose t st, rulePronounOpen t st, ruleAppOpen t,
       ruleAppClose t, ruleCloseAll t, ruleBrightness t st,
       ruleVolume t st, ruleClipboard t, ruleScreenshot t,
       ruleTimer t, ruleAlarm t] with
  | none =>
    rw [Option.getD_none]
    exact intentOK_of_plain rfl (fun hh => nomatch hh) (fun hh => nomatch hh)
  | some i =>
    rw [Option.getD_some]
    rcases firstRule_eq_some _ i hfr with ⟨o, ho, he⟩
    subst he
    simp only [List.mem_cons, List.not_mem_nil, or_false] at ho
    rcases ho with h | h | h | h | h | h | h | h | h | h | h
    · exact rulePronounClose_ok h.symm
    · exact rulePronounOpen_ok h.symm
    · exact ruleAppOpen_ok h.symm
    · exact ruleAppClose_ok h.symm
    · exact ruleCloseAll_ok h.symm
    · exact ruleBrightness_ok h.symm
    · exact ruleVolume_ok h.symm
    · exact ruleClipboard_ok h.symm
    · exact ruleScreenshot_ok h.symm
    · exact ruleTimer_ok h.symm
    · exact ruleAlarm_ok h.symm

/-- The classifier carries the input text through unchanged in `raw`. -/
theorem detect_raw_eq (t : List Char) (st : AssistantState) :
    (detect_intent_offline t st).raw = t := by
  by_cases hne : t = []
  · subst hne; rfl
  · exact (detect_intent_ok t st hne).1

/-- The classifier returns the `empty` intent only on empty input. -/
theorem detect_empty_iff (t : List Char) (st : AssistantState) :
    (detect_intent_offline t st).type = .empty ↔ t = [] := by
  constructor
  · intro h
    by_contra hne
    exact (detect_intent_ok t st hne).2.1 h
  · intro h; subst h; rfl

/-! ## The claims -/

/-- Claim C1: for every `set_brightness` or `set_volume` intent the
dispatcher clamps the value to `[0, 100]` before invoking the Backend
absolute-set; in particular, classifying `"set brightness to 150"` yields
`set_brightness` with value 150, and dispatching it invokes the Backend
with value 100. -/
theorem claim1_absolute_set_clamped :
    (∀ (i : Intent) (st : AssistantState) (v : Int),
        i.type = .set_brightness → i.value = some v →
          (execute_intent i st).calls = [.brightnessAbs (max 0 (min 100 v))]) ∧
    (∀ (i : Intent) (st : AssistantState) (v : Int),
        i.type = .set_volume → i.value = some v →
          (execute_intent i st).calls = [.volumeAbs (max 0 (min 100 v))]) ∧
    (∀ st : AssistantState,
        detect_intent_offline (strL "set brightness to 150") st
          = { type := .set_brightness, value := some 150,
              raw := strL "set brightness to 150" }) ∧
    (∀ st st2 : AssistantState,
        (execute_intent (detect_intent_offline (strL "set brightness to 150") st)
            st2).calls = [.brightnessAbs 100]) := by
  have hdet : ∀ st : AssistantState,
      detect_intent_offline (strL "set brightness to 150") st
        = { type := .set_brightness, value := some 150,
            raw := strL "set brightness to 150" } := fun _ => rfl
  refine ⟨?_, ?_, hdet, ?_⟩
  · intro i st v hty hv
    simp [execute_intent, hty, hv]
  · intro i st v hty hv
    simp [execute_intent, hty, hv]
  · intro st st2
    rw [hdet st]
    rfl

/-- Witness for C1 at the concrete intent `set_brightness{value := 150}`. -/
theorem claim1_witness :
    (execute_intent { type := .set_brightness, value := some 150, raw := strL "set brightness to 150" } initState).calls
      = [.brightnessAbs 100] :=
  claim1_absolute_set_clamped.1 _ initState 150 rfl rfl

/-- Counterexample to claim C2: classifying the bare text `"mute"` does not
yield a `set_volume` intent — the volume block is gated on the trigger words
`"volume"`, `"sound"`, `"louder"`, `"quieter"`, none of which occurs in
`"mute"`, so the classifier falls through to `raw_command`. -/
theorem claim2_counterexample :
    (detect_intent_offline (strL "mute") initState).type = IType.raw_command ∧
    (detect_intent_offline (strL "mute") initState).type ≠ IType.set_volume := by
  decide

/-- Claim C2 (amended): classifying `"mute volume"` — text containing a
volume trigger word together with `"mute"` — yields `set_volume{value = 0}`,
so dispatching the classified intent equals dispatching that `set_volume`
intent directly, for every context. -/
theorem claim2_mute_volume_roundtrip :
    ∀ st st2 : AssistantState,
      detect_intent_offline (strL "mute volume") st
        = { type := .set_volume, value := some 0, raw := strL "mute volume" } ∧
      execute_intent (detect_intent_offline (strL "mute volume") st) st2
        = execute_intent { type := .set_volume, value := some 0, raw := strL "mute volume" } st2 := by
  intro st st2
  exact ⟨rfl, rfl⟩

/-- Counterexample to claim C3: the normalizer is not idempotent.  On
`"a  bit"` the doubled space keeps the filler `"a bit"` from matching, but
whitespace collapsing then manufactures it, so a second pass removes it. -/
theorem claim3_counterexample :
    normalize_text (normalize_text (strL "a  bit")) ≠ normalize_text (strL "a  bit") := by
  decide

/-- Claim C3 (amended): the normalizer is idempotent on every input whose
normal form contains no configured filler phrase as a substring:
`normalize(normalize(x)) = normalize(x)` for all such `x`. -/
theorem claim3_normalize_idempotent (x : List Char)
    (hf : ∀ f ∈ FILLER_PHRASES, isSub f (normalize_text x) = false) :
    normalize_text (normalize_text x) = normalize_text x :=
  normalize_fixed_of_no_filler x hf

/-- Witness for C3 at the concrete input `"Hello,  World!"`. -/
theorem claim3_witness :
    normalize_text (normalize_text (strL "Hello,  World!"))
      = normalize_text (strL "Hello,  World!") :=
  claim3_normalize_idempotent (strL "Hello,  World!") (by decide)

/-- Claim C4: classifying `"brighter"` when the remembered brightness delta
is 0 yields `change_brightness{delta = 10}` (the fixed default); dispatching
that intent records 10 as the new remembered delta; and classifying a fresh
`"brighter"` (no digits) with remembered delta 10 yields
`change_brightness{delta = 10}` again by reusing it. -/
theorem claim4_brighter_default_then_reuse :
    (∀ st : AssistantState, st.last_brightness_change = 0 →
        detect_intent_offline (strL "brighter") st
          = { type := .change_brightness, delta := some 10, raw := strL "brighter" }) ∧
    (∀ st : AssistantState,
        (execute_intent { type := .change_brightness, delta := some 10, raw := strL "brighter" } st).state.last_brightness_change = 10) ∧
    (∀ st : AssistantState, st.last_brightness_change = 10 →
        detect_intent_offline (strL "brighter") st
          = { type := .change_brightness, delta := some 10, raw := strL "brighter" }) := by
  refine ⟨?_, ?_, ?_⟩
  · intro st h
    obtain ⟨la, lap, lb, lv, rc⟩ := st
    have hlb : lb = 0 := h
    subst hlb
    rfl
  · intro st
    rfl
  · intro st h
    obtain ⟨la, lap, lb, lv, rc⟩ := st
    have hlb : lb = 10 := h
    subst hlb
    rfl

/-- Witness for C4 at the initial state and at a state remembering delta 10. -/
theorem claim4_witness :
    detect_intent_offline (strL "brighter") initState
      = { type := .change_brightness, delta := some 10, raw := strL "brighter" } ∧
    detect_intent_offline (strL "brighter")
        { initState with last_brightness_change := 10 }
      = { type := .change_brightness, delta := some 10, raw := strL "brighter" } :=
  ⟨claim4_brighter_default_then_reuse.1 initState rfl,
   claim4_brighter_default_then_reuse.2.2 _ rfl⟩

/-- Claim C5: classifying `"close that"` with `last_app = "code"` yields
`close_app{app = "code"}`; with `last_app` unset the pronoun rule falls
through and no other rule fires, so the result is the default `raw_command`
intent. -/
theorem claim5_close_that_pronoun :
    (∀ st : AssistantState, st.last_app = some (strL "code") →
        detect_intent_offline (strL "close that") st
          = { type := .close_app, app := some (strL "code"), raw := strL "close that" }) ∧
    (∀ st : AssistantState, st.last_app = none →
        detect_intent_offline (strL "close that") st
          = { type := .raw_command, raw := strL "close that" }) := by
  constructor
  · intro st h
    obtain ⟨la, lap, lb, lv, rc⟩ := st
    have hla : lap = some (strL "code") := h
    subst hla
    rfl
  · intro st h
    obtain ⟨la, lap, lb, lv, rc⟩ := st
    have hla : lap = none := h
    subst hla
    rfl

/-- Witness for C5 at a state remembering `"code"` and at the initial state. -/
theorem claim5_witness :
    detect_intent_offline (strL "close that")
        { initState with last_app := some (strL "code") }
      = { type := .close_app, app := some (strL "code"), raw := strL "close that" } ∧
    detect_intent_offline (strL "close that") initState
      = { type := .raw_command, raw := strL "close that" } :=
  ⟨claim5_close_that_pronoun.1 _ rfl, claim5_close_that_pronoun.2 initState rfl⟩

/-- Claim C6: app-name detection prefers the longest lexicon key occurring
in the text: classifying `"open vs code"` against the lexicon (which
contains both `"code"` and `"vs code"`) resolves the app as `"vs code"`,
not `"code"`, for every context. -/
theorem claim6_longest_app_match (st : AssistantState) :
    detect_intent_offline (strL "open vs code") st
      = { type := .open_app, app := some (strL "vs code"), raw := strL "open vs code" } :=
  rfl

/-- Counterexample to claim C7: `"timer for 0 seconds"` classifies to a
`set_timer` intent whose `duration_s` is 0, which is not strictly positive. -/
theorem claim7_counterexample :
    (detect_intent_offline (strL "timer for 0 seconds") initState).type = IType.set_timer ∧
    (detect_intent_offline (strL "timer for 0 seconds") initState).duration_s = some 0 ∧
    ¬ ((0 : Int) > 0) := by
  decide

/-- Claim C7 (amended): every `set_timer` intent produced by the classifier
carries a duration `duration_s` that is present and nonnegative (it is the
extracted number times a positive unit multiplier; the number itself may
be 0, so strict positivity fails). -/
theorem claim7_timer_duration_nonneg (t : List Char) (st : AssistantState)
    (h : (detect_intent_offline t st).type = .set_timer) :
    ∃ d : Int, (detect_intent_offline t st).duration_s = some d ∧ 0 ≤ d := by
  have hne : t ≠ [] := by
    intro he
    subst he
    exact nomatch h
  obtain ⟨n, hn⟩ := (detect_intent_ok t st hne).2.2 h
  exact ⟨(n : Int), hn, Int.natCast_nonneg n⟩

/-- Witness for C7 at the concrete input `"timer for 5 seconds"`. -/
theorem claim7_witness :
    ∃ d : Int,
      (detect_intent_offline (strL "timer for 5 seconds") initState).duration_s = some d
        ∧ 0 ≤ d :=
  claim7_timer_duration_nonneg (strL "timer for 5 seconds") initState (by decide)

/-- Claim C8: the classifier is a total function of the text and the
context — it is modelled as a pure Lean function on `(text, state)`, so
determinism and freedom from context mutation hold by construction — and it
always returns an intent carrying the input text in `raw`, defaulting to
`raw_command` when no rule matches. -/
theorem claim8_total_raw_default :
    ∀ (t : List Char) (st : AssistantState),
      (detect_intent_offline t st).raw = t ∧
      (t ≠ [] → noRuleMatches t st →
        detect_intent_offline t st = { type := .raw_command, raw := t }) := by
  intro t st
  refine ⟨detect_raw_eq t st, ?_⟩
  intro hne hnm
  obtain ⟨h1, h2, h3, h4, h5, h6, h7, h8, h9, h10, h11⟩ := hnm
  unfold detect_intent_offline
  rw [if_neg (by simpa using hne), h1, h2, h3, h4, h5, h6, h7, h8, h9, h10, h11]
  rfl

/-- Witness for C8 at the unmatched concrete input `"xyzzy"`. -/
theorem claim8_witness :
    detect_intent_offline (strL "xyzzy") initState
      = { type := .raw_command, raw := strL "xyzzy" } :=
  (claim8_total_raw_default (strL "xyzzy") initState).2 (by decide)
    (by unfold noRuleMatches; exact ⟨rfl, rfl, rfl, rfl, rfl, rfl, rfl, rfl, rfl, rfl, rfl⟩)

/-- Claim C9: dispatching an empty intent (as produced by the classifier)
returns the fixed no-speech message, performs no Backend call, and leaves
every field of the context unchanged. -/
theorem claim9_empty_dispatch_inert :
    ∀ (t : List Char) (st st2 : AssistantState),
      (detect_intent_offline t st).type = .empty →
      execute_intent (detect_intent_offline t st) st2
        = { msg := .fixed (strL "No speech detected."), state := st2, calls := [] } := by
  intro t st st2 h
  have ht : t = [] := (detect_empty_iff t st).mp h
  subst ht
  rfl

/-- Witness for C9 at empty input and the initial state. -/
theorem claim9_witness :
    execute_intent (detect_intent_offline [] initState) initState
      = { msg := .fixed (strL "No speech detected."), state := initState, calls := [] } :=
  claim9_empty_dispatch_inert [] initState initState rfl

/-- Claim C10: for every `change_brightness` or `change_volume` intent with
delta `d`, the dispatcher invokes the Backend relative-change with exactly
`d` — unclamped — and records `d` as the new remembered delta. -/
theorem claim10_relative_delta_unclamped :
    ∀ (i : Intent) (st : AssistantState) (d : Int),
      (i.type = .change_brightness → i.delta = some d →
        (execute_intent i st).calls = [.brightnessRel d] ∧
        (execute_intent i st).state.last_brightness_change = d) ∧
      (i.type = .change_volume → i.delta = some d →
        (execute_intent i st).calls = [.volumeRel d] ∧
        (execute_intent i st).state.last_volume_change = d) := by
  intro i st d
  constructor
  · intro hty hd
    constructor
    · simp [execute_intent, hty, hd]
    · simp [execute_intent, hty, hd]
  · intro hty hd
    constructor
    · simp [execute_intent, hty, hd]
    · simp [execute_intent, hty, hd]

/-- Witness for C10 at concrete deltas 250 and -7 (both outside [0, 100]). -/
theorem claim10_witness :
    (execute_intent { type := .change_brightness, delta := some 250, raw := strL "brighter" } initState).calls = [.brightnessRel 250] ∧
    (execute_intent { type := .change_volume, delta := some (-7), raw := strL "quieter" } initState).calls = [.volumeRel (-7)] :=
  ⟨((claim10_relative_delta_unclamped _ initState 250).1 rfl rfl).1,
   ((claim10_relative_delta_unclamped _ initState (-7)).2 rfl rfl).1⟩

end YoChan
